import Mathlib

/-!
Shallow embedding of the mock GraphQL order-book server
(`0xProject/mesh-mock-graphql-api`), covering the resolvers in `index.ts`:
`orderResolver`, `ordersResolver` and `addOrdersResolver`, together with the
Ramda combinators they use (`find`/`propEq`, `filter`/`allPass`,
`sortWith`/`ascend`/`descend`, `take`, `splitEvery`).

Modelling decisions:
  * GraphQL scalar values flowing through `order[field]`, `filter.value` and
    the sort keys are JavaScript numbers or strings; they are embedded as the
    sum type `Value` (`vInt` for the JS number `chainId`, `vStr` for every
    string field).  JS relational operators on two strings are lexicographic
    by code unit, and on two numbers they are numeric; both are modelled
    exactly.  The mixed number/string case (reachable only when a caller
    sends a filter value whose type does not match the field) coerces the
    string with `Number(...)`; it is modelled by exact parsing of a decimal
    numeral (`String.toInt?`), the unparsable case behaving like `NaN`
    (every relational operator returns `false`, `===` returns `false`).
  * `FilterKind` and `SortDirection` are runtime strings (the GraphQL enum
    serialisation), so the resolvers' `default: throw` branches are
    reachable; the resolvers are embedded in `Except String`.
  * `R.sortWith` copies the list and sorts it with the combined comparator
    using the JS engine's stable `Array.prototype.sort`; it is embedded as
    `List.mergeSort` (a stable sort) ordered by `combineCmp cmps a b ≤ 0`.
  * `R.take n` is `slice(0, n < 0 ? Infinity : n)`: a negative count takes
    the whole list.
  * The order record store (`mockOrders`) is an arbitrary list parameter.
-/

namespace MeshMock

/-- A JS value reaching the comparison operators: the `chainId` field is a JS
number, every other order field and every string filter value is a JS string. -/
inductive Value where
  | vInt : Int → Value
  | vStr : String → Value
deriving DecidableEq, Repr

/-- Lexicographic comparison of character lists by code point, exactly the
ECMAScript string relational comparison (all repository data is ASCII, where
code points and UTF-16 code units coincide). -/
def charListLtB : List Char → List Char → Bool
  | _, [] => false
  | [], _ :: _ => true
  | a :: as, b :: bs =>
    if a.toNat < b.toNat then true
    else if b.toNat < a.toNat then false
    else charListLtB as bs

/-- JS `a < b` on two strings: lexicographic. -/
def strLtB (a b : String) : Bool := charListLtB a.data b.data

/-- Accumulate the value of a list of decimal digits; `none` on any
non-digit. -/
def decNatAux : List Char → Nat → Option Nat
  | [], acc => some acc
  | c :: cs, acc =>
    if 48 ≤ c.toNat ∧ c.toNat ≤ 57 then decNatAux cs (acc * 10 + (c.toNat - 48))
    else none

/-- JS `Number(s)` restricted to nonempty canonical decimal numerals with an
optional leading minus — the only numeric strings this repository carries;
anything else behaves like `NaN` (`none`). -/
def strToNum (s : String) : Option Int :=
  match s.data with
  | [] => none
  | '-' :: rest =>
    match rest with
    | [] => none
    | _ => (decNatAux rest 0).map fun n => -(n : Int)
  | l => (decNatAux l 0).map fun n => (n : Int)

/-- JS `a < b` on the values above: numeric on two numbers, lexicographic on
two strings, and on a mixed pair the string is coerced with `Number(...)`
(modelled by `strToNum`, `NaN` yielding `false`). -/
def jsLtB : Value → Value → Bool
  | .vInt a, .vInt b => decide (a < b)
  | .vStr a, .vStr b => strLtB a b
  | .vInt a, .vStr b =>
    match strToNum b with
    | some n => decide (a < n)
    | none => false
  | .vStr a, .vInt b =>
    match strToNum a with
    | some n => decide (n < b)
    | none => false

/-- JS `a > b` (the ECMAScript relational comparison with the operands
swapped). -/
def jsGtB (a b : Value) : Bool := jsLtB b a

/-- JS `a <= b`: numeric / lexicographic on same-typed operands, `false` when
a mixed pair coerces to `NaN`. -/
def jsLeB : Value → Value → Bool
  | .vInt a, .vInt b => decide (a ≤ b)
  | .vStr a, .vStr b => !strLtB b a
  | .vInt a, .vStr b =>
    match strToNum b with
    | some n => decide (a ≤ n)
    | none => false
  | .vStr a, .vInt b =>
    match strToNum a with
    | some n => decide (n ≤ b)
    | none => false

/-- JS `a >= b`. -/
def jsGeB (a b : Value) : Bool := jsLeB b a

/-- JS `a === b`: strict equality, `false` across types. -/
def jsEqB : Value → Value → Bool
  | .vInt a, .vInt b => decide (a = b)
  | .vStr a, .vStr b => decide (a = b)
  | _, _ => false

/-- An order record with metadata, exactly the fields of the TS interface
`OrderWithMetadata` (`chainId` is a JS number, everything else a string). -/
structure OrderWithMetadata where
  chainId : Int
  exchangeAddress : String
  makerAddress : String
  makerAssetData : String
  makerAssetAmount : String
  makerFeeAssetData : String
  makerFee : String
  takerAddress : String
  takerAssetData : String
  takerAssetAmount : String
  takerFeeAssetData : String
  takerFee : String
  senderAddress : String
  feeRecipientAddress : String
  expirationTimeSeconds : String
  salt : String
  signature : String
  hash : String
  remainingFillableTakerAssetAmount : String
deriving DecidableEq, Repr

/-- A submitted order, the TS interface `NewOrder` (an order without the
derived metadata). -/
structure NewOrder where
  chainId : Int
  exchangeAddress : String
  makerAddress : String
  makerAssetData : String
  makerAssetAmount : String
  makerFeeAssetData : String
  makerFee : String
  takerAddress : String
  takerAssetData : String
  takerAssetAmount : String
  takerFeeAssetData : String
  takerFee : String
  senderAddress : String
  feeRecipientAddress : String
  expirationTimeSeconds : String
  salt : String
  signature : String
deriving DecidableEq, Repr

/-- The GraphQL `OrderField` enum: the closed set of fields eligible for
filtering and sorting. -/
inductive OrderField where
  | hash
  | chainId
  | exchangeAddress
  | makerAddress
  | makerAssetData
  | makerAssetAmount
  | makerFeeAssetData
  | makerFee
  | takerAddress
  | takerAssetData
  | takerAssetAmount
  | takerFeeAssetData
  | takerFee
  | senderAddress
  | feeRecipientAddress
  | expirationTimeSeconds
  | salt
  | remainingFillableTakerAssetAmount
deriving DecidableEq, Repr

/-- The dynamic property access `order[field]` of the resolvers, as a closed
dispatch over `OrderField`. -/
def getField : OrderField → OrderWithMetadata → Value
  | .hash, o => .vStr o.hash
  | .chainId, o => .vInt o.chainId
  | .exchangeAddress, o => .vStr o.exchangeAddress
  | .makerAddress, o => .vStr o.makerAddress
  | .makerAssetData, o => .vStr o.makerAssetData
  | .makerAssetAmount, o => .vStr o.makerAssetAmount
  | .makerFeeAssetData, o => .vStr o.makerFeeAssetData
  | .makerFee, o => .vStr o.makerFee
  | .takerAddress, o => .vStr o.takerAddress
  | .takerAssetData, o => .vStr o.takerAssetData
  | .takerAssetAmount, o => .vStr o.takerAssetAmount
  | .takerFeeAssetData, o => .vStr o.takerFeeAssetData
  | .takerFee, o => .vStr o.takerFee
  | .senderAddress, o => .vStr o.senderAddress
  | .feeRecipientAddress, o => .vStr o.feeRecipientAddress
  | .expirationTimeSeconds, o => .vStr o.expirationTimeSeconds
  | .salt, o => .vStr o.salt
  | .remainingFillableTakerAssetAmount, o => .vStr o.remainingFillableTakerAssetAmount

/-- The TS input `OrderFilter`; `kind` carries the runtime string of the
GraphQL `FilterKind` enum value. -/
structure OrderFilter where
  field : OrderField
  kind : String
  value : Value
deriving DecidableEq, Repr

/-- The TS input `OrderSort`; `direction` carries the runtime string of the
GraphQL `SortDirection` enum value. -/
structure OrderSort where
  field : OrderField
  direction : String
deriving DecidableEq, Repr

/-- The TS `OrdersArgs`: sort specs, filter specs and a (GraphQL `Int`,
hence possibly negative) result limit. -/
structure OrdersArgs where
  sort : List OrderSort
  filters : List OrderFilter
  limit : Int
deriving Repr

/-- The `switch (filter.kind)` of `ordersResolver`, compiling one filter into
a predicate; the `default` branch throws. -/
def compileFilter (f : OrderFilter) : Except String (OrderWithMetadata → Bool) :=
  match f.kind with
  | "EQUAL" => .ok fun o => jsEqB (getField f.field o) f.value
  | "NOT_EQUAL" => .ok fun o => !jsEqB (getField f.field o) f.value
  | "GREATER" => .ok fun o => jsGtB (getField f.field o) f.value
  | "GREATER_OR_EQUAL" => .ok fun o => jsGeB (getField f.field o) f.value
  | "LESS" => .ok fun o => jsLtB (getField f.field o) f.value
  | "LESS_OR_EQUAL" => .ok fun o => jsLeB (getField f.field o) f.value
  | k => .error ("unexpected filter kind: " ++ k)

/-- Ramda `R.ascend` applied to a key function: the three-way comparator
`(a, b) => f a < f b ? -1 : f a > f b ? 1 : 0`. -/
def ascend (f : α → Value) (a b : α) : Int :=
  if jsLtB (f a) (f b) then -1 else if jsGtB (f a) (f b) then 1 else 0

/-- Ramda `R.descend` applied to a key function: the three-way comparator
`(a, b) => f a > f b ? -1 : f a < f b ? 1 : 0`. -/
def descend (f : α → Value) (a b : α) : Int :=
  if jsGtB (f a) (f b) then -1 else if jsLtB (f a) (f b) then 1 else 0

/-- The `switch (sort.direction)` of `ordersResolver`, compiling one sort
spec into a three-way comparator; the `default` branch throws. -/
def compileSort (s : OrderSort) : Except String (OrderWithMetadata → OrderWithMetadata → Int) :=
  match s.direction with
  | "ASC" => .ok (ascend (getField s.field))
  | "DESC" => .ok (descend (getField s.field))
  | d => .error ("unexpected sort direction: " ++ d)

/-- The comparator loop of Ramda `R.sortWith`: run the comparators in order
and return the first nonzero result, `0` if all tie. -/
def combineCmp {α : Type u} : List (α → α → Int) → α → α → Int
  | [], _, _ => 0
  | c :: rest, a, b => if c a b = 0 then combineCmp rest a b else c a b

/-- Ramda `R.allPass`: the conjunction of a list of predicates (vacuously
true on the empty list). -/
def allPass {α : Type u} (ps : List (α → Bool)) (o : α) : Bool :=
  ps.all fun p => p o

/-- Ramda `R.take` on lists: `slice(0, n < 0 ? Infinity : n)`, so a negative
count takes the whole list. -/
def jsTake (n : Int) (l : List α) : List α :=
  if n < 0 then l else l.take n.toNat

/-- Ramda `R.sortWith`: copy the list and sort it with the combined
comparator using the engine's stable `Array.prototype.sort`; embedded as the
stable `List.mergeSort` ordered by `combineCmp cmps a b ≤ 0`. -/
def sortWith (cmps : List (α → α → Int)) (l : List α) : List α :=
  l.mergeSort fun a b => decide (combineCmp cmps a b ≤ 0)

/-- JS `Array.prototype.map` over a callback that can throw: the first
exception aborts the whole map. -/
def mapExcept {α : Type u} {β : Type v} {ε : Type w} (f : α → Except ε β) :
    List α → Except ε (List β)
  | [] => .ok []
  | x :: xs =>
    match f x with
    | .error e => .error e
    | .ok y =>
      match mapExcept f xs with
      | .error e => .error e
      | .ok ys => .ok (y :: ys)

/-- The `orders` resolver: compile the filters (throwing on an unknown kind),
then compile the sorters (throwing on an unknown direction), then
filter-sort-take over the store. -/
def ordersResolver (store : List OrderWithMetadata) (args : OrdersArgs) :
    Except String (List OrderWithMetadata) :=
  match mapExcept compileFilter args.filters with
  | .error e => .error e
  | .ok ps =>
    match mapExcept compileSort args.sort with
    | .error e => .error e
    | .ok cmps => .ok (jsTake args.limit (sortWith cmps (store.filter (allPass ps))))

/-- The `order` resolver: `R.find(R.propEq("hash", args.hash), mockOrders)`,
i.e. the first record whose `hash` equals the argument, if any. -/
def orderResolver (store : List OrderWithMetadata) (hash : String) :
    Option OrderWithMetadata :=
  store.find? fun o => o.hash == hash

/-- Ramda `R.splitEvery`: cut a list into consecutive slices of `n` elements
(the source only calls it with `n = 1`). -/
def splitEvery (n : Nat) : List α → List (List α)
  | [] => []
  | x :: xs => (x :: xs.take (n - 1)) :: splitEvery n (xs.drop (n - 1))
termination_by l => l.length
decreasing_by
  simp only [List.length_cons, List.length_drop]
  omega

/-- The hash literal hard-coded by `addOrdersResolver`. -/
def stubHash : String :=
  "0x06d15403630b6d83fbacbf0864eb76c2db3d6e6fc8adec8a95fc536593f17c53"

/-- The object spread `{ ...order, hash: ..., remainingFillableTakerAssetAmount: "150000" }`
materialising an accepted order. -/
def stubOrderWithMetadata (o : NewOrder) : OrderWithMetadata :=
  { chainId := o.chainId
    exchangeAddress := o.exchangeAddress
    makerAddress := o.makerAddress
    makerAssetData := o.makerAssetData
    makerAssetAmount := o.makerAssetAmount
    makerFeeAssetData := o.makerFeeAssetData
    makerFee := o.makerFee
    takerAddress := o.takerAddress
    takerAssetData := o.takerAssetData
    takerAssetAmount := o.takerAssetAmount
    takerFeeAssetData := o.takerFeeAssetData
    takerFee := o.takerFee
    senderAddress := o.senderAddress
    feeRecipientAddress := o.feeRecipientAddress
    expirationTimeSeconds := o.expirationTimeSeconds
    salt := o.salt
    signature := o.signature
    hash := stubHash
    remainingFillableTakerAssetAmount := "150000" }

/-- The TS `AcceptedOrderResult`. -/
structure AcceptedOrderResult where
  order : OrderWithMetadata
  isNew : Bool
deriving DecidableEq, Repr

/-- The TS `RejectedOrderResult` (`code` carries the runtime string of the
`RejectedOrderCode` enum value). -/
structure RejectedOrderResult where
  hash : String
  order : NewOrder
  code : String
  message : String
deriving DecidableEq, Repr

/-- The TS `AddOrdersResults`. -/
structure AddOrdersResults where
  accepted : List AcceptedOrderResult
  rejected : List RejectedOrderResult
deriving DecidableEq, Repr

/-- The `addOrders` resolver: `const [acceptedOrders, rejectedOrders] =
R.splitEvery(1, args.orders)` takes the first two one-element slices
(`undefined`, i.e. `none`, when missing) and maps them to results. -/
def addOrdersResolver (orders : List NewOrder) : AddOrdersResults :=
  let chunks := splitEvery 1 orders
  { accepted :=
      match chunks[0]? with
      | none => []
      | some c => c.map fun o => { order := stubOrderWithMetadata o, isNew := true }
    rejected :=
      match chunks[1]? with
      | none => []
      | some c => c.map fun o =>
          { hash := stubHash
            order := o
            code := "ETH_RPC_REQUEST_FAILED"
            message := "network request to Ethereum RPC endpoint failed" } }

/-- The first record of the static `mockOrders` store, transcribed
field-for-field from the source. -/
def mockOrder0 : OrderWithMetadata :=
  { signature := "0x1c91055b1ce93cdd341c423b889be703ce436e25fe62d94aabbae97528b4d247646c3cd3a20f0566540ac5668336d147d844cf1a7715d700f1a7c3e72f1c60e21502"
    senderAddress := "0x0000000000000000000000000000000000000000"
    makerAddress := "0xd965a4f8f5b49dd2f5ba83ef4e61880d0646fd00"
    takerAddress := "0x0000000000000000000000000000000000000000"
    makerFee := "1250000000000000"
    takerFee := "0"
    makerAssetAmount := "50000000000000000"
    takerAssetAmount := "10"
    makerAssetData := "0xf47261b0000000000000000000000000c02aaa39b223fe8d0a0e5c4f27ead9083c756cc2"
    takerAssetData := "0xa7cb5fb7000000000000000000000000d4690a51044db77d91d7aa8f7a3a5ad5da331af0000000000000000000000000000000000000000000000000000000000000008000000000000000000000000000000000000000000000000000000000000000a000000000000000000000000000000000000000000000000000000000000000e000000000000000000000000000000000000000000000000000000000000000000000000000000000000000000000000000000000000000000000000000000001000000000000000000000000000000000000000000000000000000000000000100000000000000000000000000000000000000000000000000000000000000c00000000000000000000000000e3a2a1f2146d86a604adc220b4967a898d7fe0700000000000000000000000009a379ef7218bcfd8913faa8b281ebc5a2e0bc040000000000000000000000000000000000000000000000000000000000000060000000000000000000000000000000000000000000000000000000000000004000000000000000000000000000000000000000000000000000000000000001360000000000000000000000000000000000000000000000000000000000000004"
    salt := "1584796917698"
    exchangeAddress := "0x61935cbdd02287b511119ddb11aeb42f1593b7ef"
    feeRecipientAddress := "0x0d056bb17ad4df5593b93a1efc29cb35ba4aa38d"
    expirationTimeSeconds := "1595164917"
    makerFeeAssetData := "0xf47261b0000000000000000000000000c02aaa39b223fe8d0a0e5c4f27ead9083c756cc2"
    chainId := 1
    takerFeeAssetData := "0x"
    hash := "0x06d15403630b6d73fbacbf0864eb76c2db3d6e6fc8adec8a95fc536593f17c54"
    remainingFillableTakerAssetAmount := "10" }

/-- The second record of the static `mockOrders` store, transcribed
field-for-field from the source. -/
def mockOrder1 : OrderWithMetadata :=
  { signature := "0x1bf931ab06551bbbd3a7e272ca4833503d768caca2cac564b157b46c906c7b41c57fd6146b500e1ad2dac729c351142764cb76efc975c6d7c64aef6cf7930c075d02"
    senderAddress := "0x0000000000000000000000000000000000000000"
    makerAddress := "0x0c5fa5fa51d84227bfacdc56b36329286b37d051"
    takerAddress := "0x0000000000000000000000000000000000000000"
    makerFee := "0"
    takerFee := "0"
    makerAssetAmount := "50911000000000000"
    takerAssetAmount := "10000000000000000000"
    makerAssetData := "0xf47261b0000000000000000000000000c02aaa39b223fe8d0a0e5c4f27ead9083c756cc2"
    takerAssetData := "0xf47261b000000000000000000000000058b6a8a3302369daec383334672404ee733ab239"
    salt := "1590244702461"
    exchangeAddress := "0x61935cbdd02287b511119ddb11aeb42f1593b7ef"
    feeRecipientAddress := "0xa258b39954cef5cb142fd567a46cddb31a670124"
    expirationTimeSeconds := "1592663792"
    makerFeeAssetData := "0x"
    chainId := 1
    takerFeeAssetData := "0x"
    hash := "0x181af7476932a167bb95224a0cc0f627c422c49c2f0698bf7b1bf0525518fdf1"
    remainingFillableTakerAssetAmount := "10000000000000000000" }

/-- A concrete submitted order (the protocol fields of `mockOrder0`), used to
exercise `addOrdersResolver` on explicit inputs. -/
def newOrder0 : NewOrder :=
  { chainId := 1
    exchangeAddress := "0x61935cbdd02287b511119ddb11aeb42f1593b7ef"
    makerAddress := "0xd965a4f8f5b49dd2f5ba83ef4e61880d0646fd00"
    makerAssetData := "0xf47261b0000000000000000000000000c02aaa39b223fe8d0a0e5c4f27ead9083c756cc2"
    makerAssetAmount := "50000000000000000"
    makerFeeAssetData := "0xf47261b0000000000000000000000000c02aaa39b223fe8d0a0e5c4f27ead9083c756cc2"
    makerFee := "1250000000000000"
    takerAddress := "0x0000000000000000000000000000000000000000"
    takerAssetData := "0x"
    takerAssetAmount := "10"
    takerFeeAssetData := "0x"
    takerFee := "0"
    senderAddress := "0x0000000000000000000000000000000000000000"
    feeRecipientAddress := "0x0d056bb17ad4df5593b93a1efc29cb35ba4aa38d"
    expirationTimeSeconds := "1595164917"
    salt := "1584796917698"
    signature := "0x1c91055b" }

/-- A second concrete submitted order, distinct from `newOrder0`. -/
def newOrder1 : NewOrder :=
  { newOrder0 with salt := "1590244702461", signature := "0x1bf931ab" }

/-- A third concrete submitted order, distinct from the other two. -/
def newOrder2 : NewOrder :=
  { newOrder0 with salt := "1591360002494", signature := "0x1be71eb1" }

/-! ### Basic lemmas about the embedded combinators -/

theorem splitEvery_one {α : Type u} (l : List α) :
    splitEvery 1 l = l.map fun a => [a] := by
  induction l with
  | nil => simp [splitEvery]
  | cons x xs ih => simp [splitEvery, ih]

theorem allPass_eq_true_iff {α : Type u} (ps : List (α → Bool)) (o : α) :
    allPass ps o = true ↔ ∀ p ∈ ps, p o = true := by
  simp [allPass, List.all_eq_true]

theorem sortWith_nil {α : Type u} (cmps : List (α → α → Int)) :
    sortWith cmps ([] : List α) = [] := by
  simp [sortWith]

theorem sortWith_singleton {α : Type u} (cmps : List (α → α → Int)) (a : α) :
    sortWith cmps [a] = [a] := by
  simp [sortWith]

theorem combineCmp_nil {α : Type u} (a b : α) : combineCmp [] a b = 0 := rfl

theorem sortWith_nil_cmps {α : Type u} (l : List α) : sortWith [] l = l := by
  unfold sortWith
  apply List.mergeSort_of_sorted
  induction l with
  | nil => exact .nil
  | cons x xs ih => exact .cons (fun a _ => by simp [combineCmp_nil]) ih

theorem jsTake_sublist {α : Type u} (n : Int) (l : List α) :
    (jsTake n l).Sublist l := by
  unfold jsTake
  split
  · exact List.Sublist.refl l
  · exact List.take_sublist _ l

theorem jsTake_of_length_le {α : Type u} (n : Int) (l : List α)
    (h : (l.length : Int) ≤ n) : jsTake n l = l := by
  unfold jsTake
  split
  · rfl
  · exact List.take_of_length_le (by omega)

theorem mapExcept_ok_forall₂ {α : Type u} {β : Type v} {ε : Type w}
    {f : α → Except ε β} :
    ∀ {l : List α} {ys : List β}, mapExcept f l = .ok ys →
      List.Forall₂ (fun a b => f a = .ok b) l ys := by
  intro l
  induction l with
  | nil =>
    intro ys h
    simp only [mapExcept] at h
    cases h
    exact .nil
  | cons a l ih =>
    intro ys h
    simp only [mapExcept] at h
    cases hfa : f a with
    | error e => rw [hfa] at h; cases h
    | ok b =>
      rw [hfa] at h
      cases hml : mapExcept f l with
      | error e => rw [hml] at h; cases h
      | ok bs =>
        rw [hml] at h
        cases h
        exact .cons hfa (ih hml)

theorem mapExcept_error_of_mem {α : Type u} {β : Type v} {ε : Type w}
    {f : α → Except ε β} :
    ∀ {l : List α} {x : α} {e : ε}, x ∈ l → f x = .error e →
      ∃ x' e', x' ∈ l ∧ f x' = .error e' ∧ mapExcept f l = .error e' := by
  intro l
  induction l with
  | nil => intro x e hx _; cases hx
  | cons a l ih =>
    intro x e hx hfx
    cases hfa : f a with
    | error e' => exact ⟨a, e', List.mem_cons_self a l, hfa, by simp [mapExcept, hfa]⟩
    | ok b =>
      have hx' : x ∈ l := by
        rcases List.mem_cons.1 hx with rfl | h
        · rw [hfa] at hfx; cases hfx
        · exact h
      obtain ⟨x', e', hm, hf, hmap⟩ := ih hx' hfx
      exact ⟨x', e', List.mem_cons_of_mem a hm, hf, by simp [mapExcept, hfa, hmap]⟩

theorem mapExcept_ok_of_forall {α : Type u} {β : Type v} {ε : Type w}
    {f : α → Except ε β} :
    ∀ {l : List α}, (∀ x ∈ l, ∃ y, f x = .ok y) →
      ∃ ys, mapExcept f l = .ok ys := by
  intro l
  induction l with
  | nil => exact fun _ => ⟨[], rfl⟩
  | cons a l ih =>
    intro h
    obtain ⟨y, hy⟩ := h a (List.mem_cons_self a l)
    obtain ⟨ys, hys⟩ := ih fun x hx => h x (List.mem_cons_of_mem a hx)
    exact ⟨y :: ys, by simp [mapExcept, hy, hys]⟩

/-! ### Laws of the three-way comparators built by the sort compiler -/

/-- A lawful three-way comparator: antisymmetric in sign, with ties and
strict comparisons composing transitively.  Every comparator produced by
`compileSort` satisfies this. -/
def IsCmp3 {α : Type u} (c : α → α → Int) : Prop :=
  (∀ a b, c a b = -(c b a)) ∧
  (∀ a b d, c a b = 0 → c b d = 0 → c a d = 0) ∧
  (∀ a b d, c a b ≤ 0 → c b d ≤ 0 → (c a b < 0 ∨ c b d < 0) → c a d < 0)

theorem isCmp3_of_boolLt {α : Type u} {β : Type v} (ltB : β → β → Bool) (g : α → β)
    (hasymm : ∀ x y, ltB x y = true → ltB y x = false)
    (htrans : ∀ x y z, ltB x y = true → ltB y z = true → ltB x z = true)
    (heq : ∀ x y, ltB x y = false → ltB y x = false → x = y) :
    IsCmp3 (fun a b =>
      if ltB (g a) (g b) = true then (-1 : Int)
      else if ltB (g b) (g a) = true then 1 else 0) := by
  refine ⟨?_, ?_, ?_⟩
  · intro a b
    cases hab : ltB (g a) (g b) <;> cases hba : ltB (g b) (g a) <;>
      simp [hab, hba]
    exact absurd (hasymm _ _ hab) (by simp [hba])
  · intro a b d hab hbd
    cases h1 : ltB (g a) (g b) <;> cases h2 : ltB (g b) (g a) <;>
      simp [h1, h2] at hab
    have hgab : g a = g b := heq _ _ h1 h2
    show (if ltB (g a) (g d) = true then (-1 : Int)
      else if ltB (g d) (g a) = true then 1 else 0) = 0
    rw [hgab]
    exact hbd
  · intro a b d hab hbd hs
    have Hab : ltB (g a) (g b) = true ∨
        (ltB (g a) (g b) = false ∧ ltB (g b) (g a) = false) := by
      cases h1 : ltB (g a) (g b)
      · cases h2 : ltB (g b) (g a)
        · exact Or.inr ⟨rfl, rfl⟩
        · simp [h1, h2] at hab
      · exact Or.inl rfl
    have Hbd : ltB (g b) (g d) = true ∨
        (ltB (g b) (g d) = false ∧ ltB (g d) (g b) = false) := by
      cases h1 : ltB (g b) (g d)
      · cases h2 : ltB (g d) (g b)
        · exact Or.inr ⟨rfl, rfl⟩
        · simp [h1, h2] at hbd
      · exact Or.inl rfl
    rcases Hab with h1 | ⟨h1, h1'⟩
    · rcases Hbd with h2 | ⟨h2, h2'⟩
      · simp [htrans _ _ _ h1 h2]
      · have hgbd : g b = g d := heq _ _ h2 h2'
        show (if ltB (g a) (g d) = true then (-1 : Int)
          else if ltB (g d) (g a) = true then 1 else 0) < 0
        rw [← hgbd]
        simp [h1]
    · rcases Hbd with h2 | ⟨h2, h2'⟩
      · have hgab : g a = g b := heq _ _ h1 h1'
        show (if ltB (g a) (g d) = true then (-1 : Int)
          else if ltB (g d) (g a) = true then 1 else 0) < 0
        rw [hgab]
        simp [h2]
      · exfalso
        rcases hs with hs | hs
        · simp [h1, h1'] at hs
        · simp [h2, h2'] at hs

theorem char_eq_of_toNat_eq {a b : Char} (h : a.toNat = b.toNat) : a = b := by
  have hv : a.val = b.val := by
    apply UInt32.eq_of_toBitVec_eq
    apply BitVec.eq_of_toNat_eq
    exact h
  exact Char.eq_of_val_eq hv

theorem charListLtB_asymm : ∀ as bs : List Char,
    charListLtB as bs = true → charListLtB bs as = false := by
  intro as
  induction as with
  | nil =>
    intro bs h
    cases bs with
    | nil => simp [charListLtB] at h
    | cons b bs => simp [charListLtB]
  | cons a as ih =>
    intro bs h
    cases bs with
    | nil => simp [charListLtB] at h
    | cons b bs =>
      simp only [charListLtB] at h ⊢
      by_cases h1 : a.toNat < b.toNat
      · rw [if_neg (by omega : ¬ b.toNat < a.toNat), if_pos h1]
      · by_cases h2 : b.toNat < a.toNat
        · rw [if_neg h1, if_pos h2] at h
          cases h
        · rw [if_neg h1, if_neg h2] at h
          rw [if_neg h2, if_neg h1]
          exact ih bs h

theorem charListLtB_trans : ∀ as bs cs : List Char,
    charListLtB as bs = true → charListLtB bs cs = true →
    charListLtB as cs = true := by
  intro as
  induction as with
  | nil =>
    intro bs cs h1 h2
    cases cs with
    | nil =>
      cases bs with
      | nil => simp [charListLtB] at h1
      | cons b bs => simp [charListLtB] at h2
    | cons c cs => simp [charListLtB]
  | cons a as ih =>
    intro bs cs h1 h2
    cases bs with
    | nil => simp [charListLtB] at h1
    | cons b bs =>
      cases cs with
      | nil => simp [charListLtB] at h2
      | cons c cs =>
        simp only [charListLtB] at h1 h2 ⊢
        by_cases hab : a.toNat < b.toNat
        · by_cases hbc : b.toNat < c.toNat
          · rw [if_pos (by omega)]
          · by_cases hcb : c.toNat < b.toNat
            · rw [if_neg hbc, if_pos hcb] at h2
              cases h2
            · rw [if_pos (by omega)]
        · by_cases hba : b.toNat < a.toNat
          · rw [if_neg hab, if_pos hba] at h1
            cases h1
          · by_cases hbc : b.toNat < c.toNat
            · rw [if_pos (by omega)]
            · by_cases hcb : c.toNat < b.toNat
              · rw [if_neg hbc, if_pos hcb] at h2
                cases h2
              · rw [if_neg hab, if_neg hba] at h1
                rw [if_neg hbc, if_neg hcb] at h2
                rw [if_neg (by omega : ¬ a.toNat < c.toNat),
                  if_neg (by omega : ¬ c.toNat < a.toNat)]
                exact ih bs cs h1 h2

theorem charListLtB_eq : ∀ as bs : List Char,
    charListLtB as bs = false → charListLtB bs as = false → as = bs := by
  intro as
  induction as with
  | nil =>
    intro bs h1 h2
    cases bs with
    | nil => rfl
    | cons b bs => simp [charListLtB] at h1
  | cons a as ih =>
    intro bs h1 h2
    cases bs with
    | nil => simp [charListLtB] at h2
    | cons b bs =>
      simp only [charListLtB] at h1 h2
      by_cases hab : a.toNat < b.toNat
      · rw [if_pos hab] at h1
        cases h1
      · by_cases hba : b.toNat < a.toNat
        · rw [if_pos hba] at h2
          cases h2
        · rw [if_neg hab, if_neg hba] at h1
          rw [if_neg hba, if_neg hab] at h2
          have hhead : a = b := char_eq_of_toNat_eq (by omega)
          rw [hhead, ih bs h1 h2]

theorem strLtB_asymm (x y : String) (h : strLtB x y = true) :
    strLtB y x = false :=
  charListLtB_asymm _ _ h

theorem strLtB_trans (x y z : String) (h1 : strLtB x y = true)
    (h2 : strLtB y z = true) : strLtB x z = true :=
  charListLtB_trans _ _ _ h1 h2

theorem strLtB_eq (x y : String) (h1 : strLtB x y = false)
    (h2 : strLtB y x = false) : x = y := by
  cases x with
  | mk xd =>
    cases y with
    | mk yd =>
      rw [charListLtB_eq xd yd h1 h2]

theorem isCmp3_ascend_vStr {α : Type u} (g : α → String) :
    IsCmp3 (ascend fun o => Value.vStr (g o)) :=
  isCmp3_of_boolLt strLtB g strLtB_asymm strLtB_trans strLtB_eq

theorem isCmp3_ascend_vInt {α : Type u} (g : α → Int) :
    IsCmp3 (ascend fun o => Value.vInt (g o)) := by
  refine isCmp3_of_boolLt (fun x y : Int => decide (x < y)) g ?_ ?_ ?_
  · intro x y h
    simp only [decide_eq_true_eq] at h
    simp only [decide_eq_false_iff_not]
    omega
  · intro x y z h1 h2
    simp only [decide_eq_true_eq] at h1 h2 ⊢
    omega
  · intro x y h1 h2
    simp only [decide_eq_false_iff_not] at h1 h2
    omega

theorem isCmp3_ascend_getField (fld : OrderField) :
    IsCmp3 (ascend (getField fld)) := by
  cases fld <;>
    first
      | exact isCmp3_ascend_vInt fun o : OrderWithMetadata => o.chainId
      | exact isCmp3_ascend_vStr fun o : OrderWithMetadata => o.hash
      | exact isCmp3_ascend_vStr fun o : OrderWithMetadata => o.exchangeAddress
      | exact isCmp3_ascend_vStr fun o : OrderWithMetadata => o.makerAddress
      | exact isCmp3_ascend_vStr fun o : OrderWithMetadata => o.makerAssetData
      | exact isCmp3_ascend_vStr fun o : OrderWithMetadata => o.makerAssetAmount
      | exact isCmp3_ascend_vStr fun o : OrderWithMetadata => o.makerFeeAssetData
      | exact isCmp3_ascend_vStr fun o : OrderWithMetadata => o.makerFee
      | exact isCmp3_ascend_vStr fun o : OrderWithMetadata => o.takerAddress
      | exact isCmp3_ascend_vStr fun o : OrderWithMetadata => o.takerAssetData
      | exact isCmp3_ascend_vStr fun o : OrderWithMetadata => o.takerAssetAmount
      | exact isCmp3_ascend_vStr fun o : OrderWithMetadata => o.takerFeeAssetData
      | exact isCmp3_ascend_vStr fun o : OrderWithMetadata => o.takerFee
      | exact isCmp3_ascend_vStr fun o : OrderWithMetadata => o.senderAddress
      | exact isCmp3_ascend_vStr fun o : OrderWithMetadata => o.feeRecipientAddress
      | exact isCmp3_ascend_vStr fun o : OrderWithMetadata => o.expirationTimeSeconds
      | exact isCmp3_ascend_vStr fun o : OrderWithMetadata => o.salt
      | exact isCmp3_ascend_vStr fun o : OrderWithMetadata => o.remainingFillableTakerAssetAmount

theorem descend_eq_flip {α : Type u} (f : α → Value) :
    descend f = fun a b => ascend f b a := by
  funext a b
  simp only [ascend, descend, jsGtB]

theorem isCmp3_flip {α : Type u} {c : α → α → Int} (h : IsCmp3 c) :
    IsCmp3 fun a b => c b a := by
  obtain ⟨h1, h2, h3⟩ := h
  exact ⟨fun a b => h1 b a,
    fun a b d hab hbd => h2 d b a hbd hab,
    fun a b d hab hbd hs => h3 d b a hbd hab hs.symm⟩

theorem compileSort_ok_isCmp3 {s : OrderSort} {c : OrderWithMetadata → OrderWithMetadata → Int}
    (h : compileSort s = .ok c) : IsCmp3 c := by
  unfold compileSort at h
  split at h
  · cases h
    exact isCmp3_ascend_getField s.field
  · cases h
    rw [descend_eq_flip]
    exact isCmp3_flip (isCmp3_ascend_getField s.field)
  · cases h

theorem isCmp3_combineCmp {α : Type u} (cs : List (α → α → Int))
    (h : ∀ c ∈ cs, IsCmp3 c) : IsCmp3 fun a b => combineCmp cs a b := by
  induction cs with
  | nil =>
    refine ⟨?_, ?_, ?_⟩ <;> intros <;> simp_all [combineCmp]
  | cons c cs ih =>
    obtain ⟨ha, he, hl⟩ := h c (List.mem_cons_self c cs)
    obtain ⟨ha', he', hl'⟩ := ih fun c' hc' => h c' (List.mem_cons_of_mem c hc')
    refine ⟨?_, ?_, ?_⟩
    · intro a b
      show combineCmp (c :: cs) a b = -combineCmp (c :: cs) b a
      by_cases h0 : c a b = 0
      · have h0' : c b a = 0 := by have := ha a b; omega
        simp only [combineCmp, h0, h0', if_pos rfl]
        exact ha' a b
      · have h0' : c b a ≠ 0 := by have := ha a b; omega
        simp only [combineCmp, if_neg h0, if_neg h0']
        exact ha a b
    · intro a b d hab hbd
      show combineCmp (c :: cs) a d = 0
      simp only [combineCmp] at hab hbd
      by_cases h1 : c a b = 0
      · by_cases h2 : c b d = 0
        · have h3 : c a d = 0 := he a b d h1 h2
          simp only [combineCmp, h1, h2, h3, if_pos rfl] at hab hbd ⊢
          exact he' a b d hab hbd
        · simp only [if_neg h2] at hbd
          exact absurd hbd h2
      · simp only [if_neg h1] at hab
        exact absurd hab h1
    · intro a b d hab hbd hs
      show combineCmp (c :: cs) a d < 0
      simp only [combineCmp] at hab hbd hs
      by_cases h1 : c a b = 0
      · by_cases h2 : c b d = 0
        · have h3 : c a d = 0 := he a b d h1 h2
          simp only [combineCmp, h1, h2, h3, if_pos rfl] at hab hbd hs ⊢
          exact hl' a b d hab hbd hs
        · simp only [if_pos h1, if_neg h2] at hab hbd hs
          have h3 : c a d < 0 := hl a b d (by omega) hbd (Or.inr (by omega))
          simp only [combineCmp, if_neg (by omega : ¬ c a d = 0)]
          exact h3
      · by_cases h2 : c b d = 0
        · simp only [if_neg h1, if_pos h2] at hab hbd
          have h3 : c a d < 0 := hl a b d hab (by omega) (Or.inl (by omega))
          simp only [combineCmp, if_neg (by omega : ¬ c a d = 0)]
          exact h3
        · simp only [if_neg h1, if_neg h2] at hab hbd
          have h3 : c a d < 0 := hl a b d hab hbd (Or.inl (by omega))
          simp only [combineCmp, if_neg (by omega : ¬ c a d = 0)]
          exact h3

theorem IsCmp3.le_trans {α : Type u} {c : α → α → Int} (h : IsCmp3 c)
    {a b d : α} (hab : c a b ≤ 0) (hbd : c b d ≤ 0) : c a d ≤ 0 := by
  obtain ⟨_, he, hl⟩ := h
  by_cases h1 : c a b = 0
  · by_cases h2 : c b d = 0
    · rw [he a b d h1 h2]
    · exact le_of_lt (hl a b d hab hbd (Or.inr (by omega)))
  · exact le_of_lt (hl a b d hab hbd (Or.inl (by omega)))

theorem IsCmp3.le_total {α : Type u} {c : α → α → Int} (h : IsCmp3 c)
    (a b : α) : c a b ≤ 0 ∨ c b a ≤ 0 := by
  have := h.1 a b
  omega

theorem forall₂_exists_left {α : Type u} {β : Type v} {R : α → β → Prop} :
    ∀ {l : List α} {ys : List β}, List.Forall₂ R l ys → ∀ y ∈ ys, ∃ x ∈ l, R x y := by
  intro l
  induction l with
  | nil =>
    intro ys h y hy
    cases h
    cases hy
  | cons a l ih =>
    intro ys h y hy
    cases h with
    | cons hr ht =>
      rcases List.mem_cons.1 hy with rfl | hy'
      · exact ⟨a, List.mem_cons_self a l, hr⟩
      · obtain ⟨x, hx, hR⟩ := ih ht y hy'
        exact ⟨x, List.mem_cons_of_mem a hx, hR⟩

/-- The comparators handed to `sortWith` by `ordersResolver` always come from
`compileSort`, hence are all lawful. -/
theorem compiled_sorters_isCmp3 {sorts : List OrderSort}
    {cmps : List (OrderWithMetadata → OrderWithMetadata → Int)}
    (h : mapExcept compileSort sorts = .ok cmps) :
    ∀ c ∈ cmps, IsCmp3 c := by
  intro c hc
  obtain ⟨s, _, hs⟩ := forall₂_exists_left (mapExcept_ok_forall₂ h) c hc
  exact compileSort_ok_isCmp3 hs

theorem sortWith_pairwise {α : Type u} {cs : List (α → α → Int)}
    (hcs : ∀ c ∈ cs, IsCmp3 c) (l : List α) :
    (sortWith cs l).Pairwise fun a b => combineCmp cs a b ≤ 0 := by
  have hc := isCmp3_combineCmp cs hcs
  have htrans : ∀ a b d : α,
      (fun x y => decide (combineCmp cs x y ≤ 0)) a b →
      (fun x y => decide (combineCmp cs x y ≤ 0)) b d →
      (fun x y => decide (combineCmp cs x y ≤ 0)) a d := by
    intro a b d h1 h2
    simp only [decide_eq_true_eq] at h1 h2 ⊢
    exact hc.le_trans h1 h2
  have htotal : ∀ a b : α,
      ((fun x y => decide (combineCmp cs x y ≤ 0)) a b ||
        (fun x y => decide (combineCmp cs x y ≤ 0)) b a) = true := by
    intro a b
    simp only [Bool.or_eq_true, decide_eq_true_eq]
    exact hc.le_total a b
  have hp := List.sorted_mergeSort htrans htotal l
  exact List.Pairwise.imp (by simp) hp

theorem sortWith_stable {α : Type u} {cs : List (α → α → Int)}
    (hcs : ∀ c ∈ cs, IsCmp3 c) {l c : List α}
    (hsub : c.Sublist l)
    (htie : c.Pairwise fun a b => combineCmp cs a b = 0) :
    c.Sublist (sortWith cs l) := by
  have hc := isCmp3_combineCmp cs hcs
  exact List.sublist_mergeSort
    (fun a b d h1 h2 => by
      simp only [decide_eq_true_eq] at h1 h2 ⊢
      exact hc.le_trans h1 h2)
    (fun a b => by
      simp only [Bool.or_eq_true, decide_eq_true_eq]
      exact hc.le_total a b)
    (htie.imp fun h => by simp [h])
    hsub

theorem forall₂_exists_right {α : Type u} {β : Type v} {R : α → β → Prop} :
    ∀ {l : List α} {ys : List β}, List.Forall₂ R l ys → ∀ x ∈ l, ∃ y ∈ ys, R x y := by
  intro l
  induction l with
  | nil =>
    intro ys _ x hx
    cases hx
  | cons a l ih =>
    intro ys h x hx
    cases h with
    | cons hr ht =>
      rcases List.mem_cons.1 hx with rfl | hx'
      · exact ⟨_, List.mem_cons_self _ _, hr⟩
      · obtain ⟨y, hy, hR⟩ := ih ht x hx'
        exact ⟨y, List.mem_cons_of_mem _ hy, hR⟩

theorem ordersResolver_ok_eq {store : List OrderWithMetadata} {args : OrdersArgs}
    {ps : List (OrderWithMetadata → Bool)}
    {cmps : List (OrderWithMetadata → OrderWithMetadata → Int)}
    (hf : mapExcept compileFilter args.filters = .ok ps)
    (hs : mapExcept compileSort args.sort = .ok cmps) :
    ordersResolver store args =
      .ok (jsTake args.limit (sortWith cmps (store.filter (allPass ps)))) := by
  unfold ordersResolver
  rw [hf, hs]

theorem ordersResolver_filters_error {store : List OrderWithMetadata} {args : OrdersArgs}
    {e : String} (hf : mapExcept compileFilter args.filters = .error e) :
    ordersResolver store args = .error e := by
  unfold ordersResolver
  rw [hf]

theorem ordersResolver_sort_error {store : List OrderWithMetadata} {args : OrdersArgs}
    {ps : List (OrderWithMetadata → Bool)} {e : String}
    (hf : mapExcept compileFilter args.filters = .ok ps)
    (hs : mapExcept compileSort args.sort = .error e) :
    ordersResolver store args = .error e := by
  unfold ordersResolver
  rw [hf, hs]

/-- The six comparison kinds recognised by the filter compiler's `switch`. -/
def validFilterKind (k : String) : Bool :=
  k == "EQUAL" || k == "NOT_EQUAL" || k == "GREATER" ||
    k == "GREATER_OR_EQUAL" || k == "LESS" || k == "LESS_OR_EQUAL"

/-- The two directions recognised by the sort compiler's `switch`. -/
def validSortDirection (d : String) : Bool :=
  d == "ASC" || d == "DESC"

theorem compileFilter_error_inv {f : OrderFilter} {e : String}
    (h : compileFilter f = .error e) :
    e = "unexpected filter kind: " ++ f.kind ∧ validFilterKind f.kind = false := by
  unfold compileFilter at h
  split at h <;> simp_all [validFilterKind]

theorem compileFilter_error_of_invalid (f : OrderFilter)
    (h : validFilterKind f.kind = false) :
    compileFilter f = .error ("unexpected filter kind: " ++ f.kind) := by
  unfold compileFilter
  split <;> simp_all [validFilterKind]

theorem compileFilter_ok_of_valid (f : OrderFilter)
    (h : validFilterKind f.kind = true) :
    ∃ p, compileFilter f = .ok p := by
  obtain ⟨fld, k, v⟩ := f
  simp only [validFilterKind, Bool.or_eq_true, beq_iff_eq] at h
  rcases h with ((((rfl | rfl) | rfl) | rfl) | rfl) | rfl <;> exact ⟨_, rfl⟩

theorem compileSort_error_inv {s : OrderSort} {e : String}
    (h : compileSort s = .error e) :
    e = "unexpected sort direction: " ++ s.direction ∧
      validSortDirection s.direction = false := by
  unfold compileSort at h
  split at h <;> simp_all [validSortDirection]

theorem compileSort_error_of_invalid (s : OrderSort)
    (h : validSortDirection s.direction = false) :
    compileSort s = .error ("unexpected sort direction: " ++ s.direction) := by
  unfold compileSort
  split <;> simp_all [validSortDirection]

theorem compileSort_ok_of_valid (s : OrderSort)
    (h : validSortDirection s.direction = true) :
    ∃ c, compileSort s = .ok c := by
  obtain ⟨fld, d⟩ := s
  simp only [validSortDirection, Bool.or_eq_true, beq_iff_eq] at h
  rcases h with rfl | rfl <;> exact ⟨_, rfl⟩

/-! ### Claim theorems -/

/-- Claim C4: the combined predicate compiled from a list of FilterSpecs
accepts an order iff every individual compiled predicate accepts it, and the
empty FilterSpec list accepts every order. -/
theorem C4_filter_conjunction (filters : List OrderFilter)
    (ps : List (OrderWithMetadata → Bool)) (o : OrderWithMetadata)
    (h : mapExcept compileFilter filters = .ok ps) :
    (allPass ps o = true ↔ ∀ p ∈ ps, p o = true) ∧
    (allPass ps o = true ↔
      ∀ f ∈ filters, ∀ p, compileFilter f = .ok p → p o = true) ∧
    (filters = [] → allPass ps o = true) := by
  have hrel := mapExcept_ok_forall₂ h
  refine ⟨allPass_eq_true_iff ps o, ?_, ?_⟩
  · rw [allPass_eq_true_iff]
    constructor
    · intro hall f hf p hp
      obtain ⟨p2, hp2, hfp2⟩ := forall₂_exists_right hrel f hf
      rw [hp] at hfp2
      injection hfp2 with hpe
      rw [hpe]
      exact hall p2 hp2
    · intro hall p hp
      obtain ⟨f, hf, hfp⟩ := forall₂_exists_left hrel p hp
      exact hall f hf p hfp
  · intro hnil
    subst hnil
    cases hrel
    simp [allPass]

/-- Claim C4 witness: the empty filter list compiles and accepts a concrete
store record. -/
theorem C4_witness : allPass [] mockOrder0 = true :=
  (C4_filter_conjunction [] [] mockOrder0 rfl).2.2 rfl

/-- Claim C5: the combined comparator orders two records by the first
SortSpec's comparator and falls through to the remaining ones exactly on
ties; DESC is the argument-swap of ASC; and every successful `listOrders`
result is pairwise consistent with the combined comparator (a total order by
lexicographic priority). -/
theorem C5_sort_priority :
    (∀ (c : OrderWithMetadata → OrderWithMetadata → Int)
        (cs : List (OrderWithMetadata → OrderWithMetadata → Int))
        (a b : OrderWithMetadata),
        (c a b ≠ 0 → combineCmp (c :: cs) a b = c a b) ∧
        (c a b = 0 → combineCmp (c :: cs) a b = combineCmp cs a b)) ∧
    (∀ (f : OrderWithMetadata → Value) (a b : OrderWithMetadata),
        descend f a b = ascend f b a) ∧
    (∀ (store : List OrderWithMetadata) (args : OrdersArgs)
        (ps : List (OrderWithMetadata → Bool))
        (cmps : List (OrderWithMetadata → OrderWithMetadata → Int))
        (res : List OrderWithMetadata),
        mapExcept compileFilter args.filters = .ok ps →
        mapExcept compileSort args.sort = .ok cmps →
        ordersResolver store args = .ok res →
        res.Pairwise fun a b => combineCmp cmps a b ≤ 0) := by
  refine ⟨?_, ?_, ?_⟩
  · intro c cs a b
    constructor
    · intro h
      simp [combineCmp, h]
    · intro h
      simp [combineCmp, h]
  · intro f a b
    rw [descend_eq_flip]
  · intro store args ps cmps res hf hs hres
    rw [ordersResolver_ok_eq hf hs] at hres
    cases hres
    exact ((sortWith_pairwise (compiled_sorters_isCmp3 hs) _).sublist
      (jsTake_sublist _ _))

/-- Claim C5 witness: a concrete one-record query whose output is pairwise
consistent with the (empty) combined comparator. -/
theorem C5_witness :
    List.Pairwise
      (fun a b => combineCmp
        ([] : List (OrderWithMetadata → OrderWithMetadata → Int)) a b ≤ 0)
      [mockOrder0] :=
  C5_sort_priority.2.2 [mockOrder0] { sort := [], filters := [], limit := 20 }
    [] [] [mockOrder0] rfl rfl
    (by
      rw [@ordersResolver_ok_eq [mockOrder0] { sort := [], filters := [], limit := 20 }
        [] [] rfl rfl, sortWith_nil_cmps]
      rfl)

/-- Claim C6: the sort used by `listOrders` is stable — any records that are
pairwise tied under the combined comparator keep their relative order from
the store's iteration order (as a sublist of the sorted sequence), the
output is a prefix of that sorted sequence, and with an empty SortSpec list
the output is exactly the filtered store in iteration order. -/
theorem C6_stable_sort (store : List OrderWithMetadata) (args : OrdersArgs)
    (ps : List (OrderWithMetadata → Bool))
    (cmps : List (OrderWithMetadata → OrderWithMetadata → Int))
    (hf : mapExcept compileFilter args.filters = .ok ps)
    (hs : mapExcept compileSort args.sort = .ok cmps) :
    (∀ c : List OrderWithMetadata,
        c.Sublist (store.filter (allPass ps)) →
        (c.Pairwise fun a b => combineCmp cmps a b = 0) →
        c.Sublist (sortWith cmps (store.filter (allPass ps)))) ∧
    (ordersResolver store args =
      .ok (jsTake args.limit (sortWith cmps (store.filter (allPass ps))))) ∧
    (args.sort = [] →
      ordersResolver store args =
        .ok (jsTake args.limit (store.filter (allPass ps)))) := by
  refine ⟨?_, ordersResolver_ok_eq hf hs, ?_⟩
  · intro c hsub htie
    exact sortWith_stable (compiled_sorters_isCmp3 hs) hsub htie
  · intro hempty
    have hs' := hs
    rw [hempty] at hs'
    have hcmps : ([] : List (OrderWithMetadata → OrderWithMetadata → Int)) = cmps := by
      injection hs'
    subst hcmps
    rw [ordersResolver_ok_eq hf hs, sortWith_nil_cmps]

/-- Claim C6 witness: a concrete sort-free query returns the filtered store
in iteration order. -/
theorem C6_witness :
    ordersResolver [mockOrder0, mockOrder1] { sort := [], filters := [], limit := 20 } =
      .ok (jsTake 20 (List.filter (allPass []) [mockOrder0, mockOrder1])) :=
  (C6_stable_sort [mockOrder0, mockOrder1] { sort := [], filters := [], limit := 20 }
    [] [] rfl rfl).2.2 rfl

/-- Claim C7: a QuerySpec containing a FilterSpec with an unrecognized
comparison kind, or a SortSpec with an unrecognized direction, makes
`listOrders` fail the whole query with an error naming the offending value;
no order list is returned. -/
theorem C7_invalid_spec_fails (store : List OrderWithMetadata) (args : OrdersArgs)
    (h : (∃ f ∈ args.filters, validFilterKind f.kind = false) ∨
         (∃ s ∈ args.sort, validSortDirection s.direction = false)) :
    ∃ v : String,
      (ordersResolver store args = .error ("unexpected filter kind: " ++ v) ∧
        ∃ f ∈ args.filters, f.kind = v ∧ validFilterKind v = false) ∨
      (ordersResolver store args = .error ("unexpected sort direction: " ++ v) ∧
        ∃ s ∈ args.sort, s.direction = v ∧ validSortDirection v = false) := by
  by_cases hf : ∃ f ∈ args.filters, validFilterKind f.kind = false
  · obtain ⟨f, hmem, hbad⟩ := hf
    obtain ⟨x, e, hm, hfx, hmap⟩ :=
      mapExcept_error_of_mem hmem (compileFilter_error_of_invalid f hbad)
    obtain ⟨he, hxbad⟩ := compileFilter_error_inv hfx
    subst he
    exact ⟨x.kind, Or.inl ⟨ordersResolver_filters_error hmap, x, hm, rfl, hxbad⟩⟩
  · rcases h with h | h
    · exact absurd h hf
    · have hall : ∀ f ∈ args.filters, ∃ p, compileFilter f = .ok p := by
        intro f hf'
        apply compileFilter_ok_of_valid
        by_contra hbad
        exact hf ⟨f, hf', by simpa using hbad⟩
      obtain ⟨ps, hps⟩ := mapExcept_ok_of_forall hall
      obtain ⟨s, hmem, hbad⟩ := h
      obtain ⟨x, e, hm, hsx, hmap⟩ :=
        mapExcept_error_of_mem hmem (compileSort_error_of_invalid s hbad)
      obtain ⟨he, hxbad⟩ := compileSort_error_inv hsx
      subst he
      exact ⟨x.direction,
        Or.inr ⟨ordersResolver_sort_error hps hmap, x, hm, rfl, hxbad⟩⟩

/-- Claim C7 witness: a concrete query with filter kind "GREATERTHAN" and
sort direction "UP" fails with the filter-kind error. -/
theorem C7_witness :
    ∃ v : String,
      (ordersResolver [mockOrder0]
          { sort := [⟨.hash, "UP"⟩],
            filters := [⟨.makerAssetAmount, "GREATERTHAN", .vStr "9"⟩],
            limit := 20 } = .error ("unexpected filter kind: " ++ v) ∧
        ∃ f ∈ [(⟨.makerAssetAmount, "GREATERTHAN", .vStr "9"⟩ : OrderFilter)],
          f.kind = v ∧ validFilterKind v = false) ∨
      (ordersResolver [mockOrder0]
          { sort := [⟨.hash, "UP"⟩],
            filters := [⟨.makerAssetAmount, "GREATERTHAN", .vStr "9"⟩],
            limit := 20 } = .error ("unexpected sort direction: " ++ v) ∧
        ∃ s ∈ [(⟨.hash, "UP"⟩ : OrderSort)],
          s.direction = v ∧ validSortDirection v = false) :=
  C7_invalid_spec_fails [mockOrder0]
    { sort := [⟨.hash, "UP"⟩],
      filters := [⟨.makerAssetAmount, "GREATERTHAN", .vStr "9"⟩],
      limit := 20 }
    (Or.inl ⟨⟨.makerAssetAmount, "GREATERTHAN", .vStr "9"⟩, by simp, by decide⟩)

/-- Claim C8: `getByHash` returns a record of the store bearing exactly the
requested hash (the unique such record when store hashes are distinct),
reports absence as a plain `none` rather than an error, and never returns
the same record for two distinct present hashes. -/
theorem C8_point_lookup (store : List OrderWithMetadata) (hq : String) :
    (∀ r, orderResolver store hq = some r → r ∈ store ∧ r.hash = hq) ∧
    (orderResolver store hq = none ↔ ∀ r ∈ store, r.hash ≠ hq) ∧
    ((store.map fun o => o.hash).Nodup →
      ∀ r ∈ store, r.hash = hq → orderResolver store hq = some r) ∧
    (∀ h₂ r₁ r₂, hq ≠ h₂ → orderResolver store hq = some r₁ →
      orderResolver store h₂ = some r₂ → r₁ ≠ r₂) := by
  refine ⟨?_, ?_, ?_, ?_⟩
  · intro r hr
    refine ⟨List.mem_of_find?_eq_some hr, ?_⟩
    have := List.find?_some hr
    simpa using this
  · unfold orderResolver
    rw [List.find?_eq_none]
    simp
  · intro hnodup r hr hhash
    induction store with
    | nil => cases hr
    | cons a t ih =>
      by_cases ha : a.hash = hq
      · have hfind : orderResolver (a :: t) hq = some a := by
          unfold orderResolver
          rw [List.find?_cons_of_pos]
          simp [ha]
        rw [hfind]
        rcases List.mem_cons.1 hr with rfl | hrt
        · rfl
        · exfalso
          have hmem : a.hash ∈ t.map fun o => o.hash := by
            rw [ha, ← hhash]
            exact List.mem_map_of_mem _ hrt
          simp only [List.map_cons, List.nodup_cons] at hnodup
          exact hnodup.1 hmem
      · have hfind : orderResolver (a :: t) hq = orderResolver t hq := by
          unfold orderResolver
          rw [List.find?_cons_of_neg]
          simp [ha]
        rw [hfind]
        rcases List.mem_cons.1 hr with rfl | hrt
        · exact absurd hhash ha
        · refine ih ?_ hrt
          simp only [List.map_cons, List.nodup_cons] at hnodup
          exact hnodup.2
  · intro h₂ r₁ r₂ hne h1 h2
    have e1 : r₁.hash = hq := by
      have := List.find?_some h1
      simpa using this
    have e2 : r₂.hash = h₂ := by
      have := List.find?_some h2
      simpa using this
    intro hcontra
    rw [hcontra, e2] at e1
    exact hne e1.symm

/-- Claim C8 witness: lookup of the two concrete store hashes returns the
two distinct records, and a missing hash returns `none`. -/
theorem C8_witness :
    orderResolver [mockOrder0, mockOrder1]
        "0x06d15403630b6d73fbacbf0864eb76c2db3d6e6fc8adec8a95fc536593f17c54" =
      some mockOrder0 :=
  (C8_point_lookup [mockOrder0, mockOrder1]
      "0x06d15403630b6d73fbacbf0864eb76c2db3d6e6fc8adec8a95fc536593f17c54").2.2.1
    (by decide) mockOrder0 (by simp) rfl

/-- Claim C10: `addOrders` on the empty list returns empty accepted and
rejected lists, and on a one-element list accepts that order (flagged
`isNew`) with an empty rejected list. -/
theorem C10_add_orders_small :
    addOrdersResolver [] = ⟨[], []⟩ ∧
    ∀ o : NewOrder, addOrdersResolver [o] =
      ⟨[⟨stubOrderWithMetadata o, true⟩], []⟩ := by
  constructor
  · simp [addOrdersResolver, splitEvery]
  · intro o
    simp [addOrdersResolver, splitEvery]

theorem sortWith_length {α : Type u} (cs : List (α → α → Int)) (l : List α) :
    (sortWith cs l).length = l.length := by
  simp [sortWith]

/-- Claim C1 counterexample: the store's first order has
`takerAssetAmount = "10"`, numerically greater than 9, yet filtering
`takerAssetAmount` with GREATER and value `"9"` excludes it — the compiled
predicate compares the decimal strings lexicographically, not numerically. -/
theorem C1_counterexample :
    mockOrder0.takerAssetAmount = "10" ∧
    strToNum mockOrder0.takerAssetAmount = some 10 ∧
    strToNum "9" = some 9 ∧ ((9 : Int) < 10) ∧
    ordersResolver [mockOrder0]
      { sort := [],
        filters := [⟨.takerAssetAmount, "GREATER", .vStr "9"⟩],
        limit := 20 } = .ok [] := by
  refine ⟨rfl, by decide, by decide, by norm_num, ?_⟩
  rw [@ordersResolver_ok_eq [mockOrder0]
    { sort := [], filters := [⟨.takerAssetAmount, "GREATER", .vStr "9"⟩], limit := 20 }
    [fun o => jsGtB (getField .takerAssetAmount o) (.vStr "9")] [] rfl rfl]
  have hfilter : List.filter
      (allPass [fun o => jsGtB (getField .takerAssetAmount o) (.vStr "9")])
      [mockOrder0] = [] := by decide
  rw [hfilter, sortWith_nil]
  rfl

/-- Claim C1 as amended: the compiled filter predicate uses the JS relational
operators, which compare the string-encoded numeric fields (amounts, fees,
salt, expiration) lexicographically as strings — `"9" < "10"` fails — and
only the JS-number field `chainId` numerically. -/
theorem C1_amended_lexicographic :
    (∀ (o : OrderWithMetadata) (v : String) (p : OrderWithMetadata → Bool),
        compileFilter ⟨.makerAssetAmount, "GREATER", .vStr v⟩ = .ok p →
        p o = strLtB v o.makerAssetAmount) ∧
    (∀ (o : OrderWithMetadata) (n : Int) (p : OrderWithMetadata → Bool),
        compileFilter ⟨.chainId, "GREATER", .vInt n⟩ = .ok p →
        (p o = true ↔ n < o.chainId)) ∧
    (∀ (f : OrderField) (o : OrderWithMetadata) (v : String)
        (p : OrderWithMetadata → Bool), f ≠ .chainId →
        compileFilter ⟨f, "GREATER", .vStr v⟩ = .ok p →
        ∃ s : String, getField f o = .vStr s ∧ p o = strLtB v s) := by
  refine ⟨?_, ?_, ?_⟩
  · intro o v p hp
    have hred : compileFilter ⟨.makerAssetAmount, "GREATER", .vStr v⟩ =
        .ok (fun o => jsGtB (getField .makerAssetAmount o) (.vStr v)) := rfl
    rw [hred] at hp
    injection hp with hpe
    rw [← hpe]
    simp [jsGtB, jsLtB, getField]
  · intro o n p hp
    have hred : compileFilter ⟨.chainId, "GREATER", .vInt n⟩ =
        .ok (fun o => jsGtB (getField .chainId o) (.vInt n)) := rfl
    rw [hred] at hp
    injection hp with hpe
    rw [← hpe]
    simp [jsGtB, jsLtB, getField]
  · intro f o v p hne hp
    have hred : compileFilter ⟨f, "GREATER", .vStr v⟩ =
        .ok (fun o => jsGtB (getField f o) (.vStr v)) := rfl
    rw [hred] at hp
    injection hp with hpe
    rw [← hpe]
    cases f
    case chainId => exact absurd rfl hne
    all_goals exact ⟨_, rfl, by simp [jsGtB, jsLtB, getField]⟩

/-- Claim C1 witness: the amended lexicographic reading evaluated on the
store's first record with value `"9"`. -/
theorem C1_witness :
    (fun o => jsGtB (getField .makerAssetAmount o) (Value.vStr "9")) mockOrder0 =
      strLtB "9" mockOrder0.makerAssetAmount :=
  C1_amended_lexicographic.1 mockOrder0 "9" _ rfl

/-- Claim C2 counterexample: a negative limit is not treated as zero — with
`limit = -1` (which is `≤ 0`) the resolver returns the whole matching store,
because `R.take` maps a negative count to `Infinity`. -/
theorem C2_counterexample :
    (-1 : Int) ≤ 0 ∧
    ordersResolver [mockOrder0] { sort := [], filters := [], limit := -1 } =
      .ok [mockOrder0] ∧
    ([mockOrder0] : List OrderWithMetadata) ≠ [] := by
  refine ⟨by norm_num, ?_, by simp⟩
  rw [@ordersResolver_ok_eq [mockOrder0] { sort := [], filters := [], limit := -1 }
    [] [] rfl rfl, sortWith_nil_cmps]
  rfl

/-- Claim C2 as amended: `limit = 0` yields the empty sequence, a negative
limit yields all matching records (`R.take` treats a negative count as "take
everything"), and a limit exceeding the matching count yields exactly all
matching records. -/
theorem C2_amended_limit (store : List OrderWithMetadata) (args : OrdersArgs)
    (ps : List (OrderWithMetadata → Bool))
    (cmps : List (OrderWithMetadata → OrderWithMetadata → Int))
    (hf : mapExcept compileFilter args.filters = .ok ps)
    (hs : mapExcept compileSort args.sort = .ok cmps) :
    (args.limit = 0 → ordersResolver store args = .ok []) ∧
    (args.limit < 0 →
      ordersResolver store args = .ok (sortWith cmps (store.filter (allPass ps)))) ∧
    (((store.filter (allPass ps)).length : Int) < args.limit →
      ordersResolver store args = .ok (sortWith cmps (store.filter (allPass ps)))) := by
  rw [ordersResolver_ok_eq hf hs]
  refine ⟨?_, ?_, ?_⟩
  · intro h0
    rw [h0]
    simp [jsTake]
  · intro hneg
    simp [jsTake, hneg]
  · intro hlt
    rw [jsTake_of_length_le _ _ (by rw [sortWith_length]; omega)]

/-- Claim C2 witness: the amended limit behaviour on a concrete one-record
store with `limit = 0`. -/
theorem C2_witness :
    ordersResolver [mockOrder0] { sort := [], filters := [], limit := 0 } = .ok [] :=
  (C2_amended_limit [mockOrder0] { sort := [], filters := [], limit := 0 }
    [] [] rfl rfl).1 rfl

/-- Claim C10 witness: the one-element behaviour at a concrete order. -/
theorem C10_witness :
    addOrdersResolver [newOrder0] =
      ⟨[⟨stubOrderWithMetadata newOrder0, true⟩], []⟩ :=
  C10_add_orders_small.2 newOrder0

/-- Claim C3 counterexample: on a three-order submission the destructuring
`[accepted, rejected] = R.splitEvery(1, orders)` keeps only the first two
one-element chunks — the first order is accepted, the second rejected, and
the third (distinct from both) appears in neither list, so accepted and
rejected do not partition the input. -/
theorem C3_counterexample :
    ([newOrder0, newOrder1, newOrder2].length = 3) ∧
    (addOrdersResolver [newOrder0, newOrder1, newOrder2]).accepted.map
        (fun r => r.order) = [stubOrderWithMetadata newOrder0] ∧
    (addOrdersResolver [newOrder0, newOrder1, newOrder2]).rejected.map
        (fun r => r.order) = [newOrder1] ∧
    newOrder2 ≠ newOrder1 ∧
    stubOrderWithMetadata newOrder2 ≠ stubOrderWithMetadata newOrder0 := by
  refine ⟨rfl, ?_, ?_, by decide, by decide⟩
  · simp [addOrdersResolver, splitEvery_one]
  · simp [addOrdersResolver, splitEvery_one]

/-- Claim C3 as amended: `addOrders` accepts exactly the first submitted
order and rejects exactly the second; all later orders are silently dropped,
so accepted and rejected form a partition of the input only when it has at
most two elements. -/
theorem C3_amended_split (orders : List NewOrder) :
    ((addOrdersResolver orders).accepted =
      (orders.take 1).map fun o => ⟨stubOrderWithMetadata o, true⟩) ∧
    ((addOrdersResolver orders).rejected =
      ((orders.drop 1).take 1).map fun o =>
        ⟨stubHash, o, "ETH_RPC_REQUEST_FAILED",
          "network request to Ethereum RPC endpoint failed"⟩) ∧
    (orders.length ≤ 2 →
      ((addOrdersResolver orders).accepted.map (fun r => r.order) =
          (orders.take 1).map stubOrderWithMetadata ∧
        (addOrdersResolver orders).rejected.map (fun r => r.order) =
          orders.drop 1)) := by
  refine ⟨?_, ?_, ?_⟩
  · cases orders with
    | nil => simp [addOrdersResolver, splitEvery_one]
    | cons a t => simp [addOrdersResolver, splitEvery_one]
  · cases orders with
    | nil => simp [addOrdersResolver, splitEvery_one]
    | cons a t =>
      cases t with
      | nil => simp [addOrdersResolver, splitEvery_one]
      | cons b t2 => simp [addOrdersResolver, splitEvery_one]
  · intro hlen
    cases orders with
    | nil => simp [addOrdersResolver, splitEvery_one]
    | cons a t =>
      cases t with
      | nil => simp [addOrdersResolver, splitEvery_one]
      | cons b t2 =>
        have ht2 : t2 = [] := by
          simp only [List.length_cons] at hlen
          exact List.eq_nil_of_length_eq_zero (by omega)
        subst ht2
        simp [addOrdersResolver, splitEvery_one]

/-- Claim C3 witness: the amended behaviour on a concrete two-order
submission, where accepted/rejected do partition the input. -/
theorem C3_witness :
    (addOrdersResolver [newOrder0, newOrder1]).accepted.map (fun r => r.order) =
        ([newOrder0, newOrder1].take 1).map stubOrderWithMetadata ∧
      (addOrdersResolver [newOrder0, newOrder1]).rejected.map (fun r => r.order) =
        [newOrder0, newOrder1].drop 1 :=
  (C3_amended_split [newOrder0, newOrder1]).2.2 (by decide)

end MeshMock
